import Mathlib

/-!
Shallow embedding of the `inteq` Python package (Fredholm and Volterra
integral-equation solvers: `helpers.py`, `quad.py`, `fredholm.py`,
`volterra.py`) and proofs checking its specification claims.

Modelling conventions: machine floats are modelled by exact rationals
`ℚ`; numpy arrays by `List ℚ` or by entry functions `ℕ → ℕ → ℚ` that are
`0` outside the declared bounds; Python exceptions by `Except SolverErr`;
vectorised kernel/free callables by pointwise functions `ℚ → ℚ → ℚ` and
`ℚ → ℚ` (the spec fixes pointwise semantics for vectorisation).
-/

namespace Inteq

/-- Python exceptions raised by the library, tagged with the spec's error
vocabulary: `invalidGridSize` is the `ValueError` raised by
`helpers.simpson`; `invalidOrder` the `AssertionError` of
`quad.gregory_weight_matrix` (`assert n >= k`); `invalidMethod` the
unknown-method raise in both Volterra solvers; `singular` the
`LinAlgError` of `numpy.linalg.solve` / `scipy.linalg.solve_triangular`;
`valueError` the `numpy.linspace` negative-count error;
`invalidDimension` the `ValueError` raised inside `helpers.makeH` by
`numpy.ones` / `numpy.repeat` on a negative count when `dim ≤ 3` (the
spec's `InvalidDimension`); `zeroDivision` Python's
`ZeroDivisionError`; `indexError` a numpy out-of-bounds write. -/
inductive SolverErr where
  | invalidGridSize
  | invalidOrder
  | invalidMethod
  | singular
  | valueError
  | invalidDimension
  | zeroDivision
  | indexError
  deriving DecidableEq, Repr

/-- Python `int(q)` applied to a number: truncation toward zero, i.e.
the ceiling for negative values and the floor otherwise. -/
def pyInt (q : ℚ) : ℤ := if q < 0 then ⌈q⌉ else ⌊q⌋

/-- `numpy.linspace a b n` (`endpoint=True`): `n` evenly spaced samples
from `a` to `b`.  For `n = 1` numpy returns `[a]`; the uniform formula
below also yields `[a]` because `x / 0 = 0` in `ℚ`. -/
def linspace (a b : ℚ) (n : ℕ) : List ℚ :=
  (List.range n).map fun i : ℕ => a + (i : ℚ) * ((b - a) / ((n : ℚ) - 1))

/-- `numpy.linspace` with an integer sample count: a negative count
raises `ValueError`. -/
def linspaceE (a b : ℚ) (n : ℤ) : Except SolverErr (List ℚ) :=
  if n < 0 then .error .valueError else .ok (linspace a b n.toNat)

/-- Determinant of the leading `n × n` block of the entry function `M`,
by Laplace expansion along the first row. -/
def detN : ℕ → (ℕ → ℕ → ℚ) → ℚ
  | 0, _ => 1
  | n + 1, M =>
      ∑ j ∈ Finset.range (n + 1),
        (-1 : ℚ) ^ j * M 0 j * detN n (fun r c => M (r + 1) (if c < j then c else c + 1))

/-- The `(r0, c0)` minor of `M`: delete row `r0` and column `c0`. -/
def minorN (M : ℕ → ℕ → ℚ) (r0 c0 : ℕ) : ℕ → ℕ → ℚ := fun r c =>
  M (if r < r0 then r else r + 1) (if c < c0 then c else c + 1)

/-- Entry `(i, j)` of the inverse of the leading `n × n` block of `M`
(adjugate over determinant); this is the matrix `numpy.linalg.inv`
computes, here in exact arithmetic. -/
def matInvN (n : ℕ) (M : ℕ → ℕ → ℚ) : ℕ → ℕ → ℚ := fun i j =>
  (-1 : ℚ) ^ (i + j) * detN (n - 1) (minorN M j i) / detN n M

/-- `numpy.linalg.solve` / `scipy.linalg.solve` on the leading `n × n`
block: `LinAlgError` on an (exactly) singular matrix, else `x = A⁻¹ b`. -/
def linSolveN (n : ℕ) (M : ℕ → ℕ → ℚ) (b : ℕ → ℚ) : Except SolverErr (List ℚ) :=
  if detN n M = 0 then .error .singular
  else .ok ((List.range n).map fun i => ∑ j ∈ Finset.range n, matInvN n M i j * b j)

/-- Identity-matrix entries (`numpy.eye`). -/
def eye : ℕ → ℕ → ℚ := fun i j => if i = j then 1 else 0

/-- `numpy.tril`: zero strictly above the diagonal. -/
def tril (M : ℕ → ℕ → ℚ) : ℕ → ℕ → ℚ := fun i j => if j ≤ i then M i j else 0

/-- Forward substitution for a lower-triangular `n × n` system, as
performed by `scipy.linalg.solve_triangular(..., lower=True)`: LAPACK
`trtrs` reports a singular matrix exactly when some diagonal entry is
zero, modelled by `none`. -/
def forwardSubst (M : ℕ → ℕ → ℚ) (b : List ℚ) : ℕ → Option (List ℚ)
  | 0 => some []
  | n + 1 =>
      (forwardSubst M b n).bind fun g =>
        if M n n = 0 then none
        else some (g ++ [(b.getD n 0 - ∑ j ∈ Finset.range n, M n j * g.getD j 0) / M n n])

/-- Shared tail of the triangular-solve branches of `volterra.solve2`:
run `scipy.linalg.solve_triangular` and pair the grid with the solution,
mapping the `LinAlgError` to `singular`. -/
def triSolve (M : ℕ → ℕ → ℚ) (fg : List ℚ) (n : ℕ) (s : List ℚ) :
    Except SolverErr (List ℚ × List ℚ) :=
  (forwardSubst M fg n).elim (.error .singular) fun g => .ok (s, g)

namespace Helpers

/-- First off-diagonal vector `d1` of `helpers.makeH`:
`[-2] ++ (dim-3) copies of -4 ++ [-2]`. -/
def d1 (dim : ℕ) : List ℚ := [-2] ++ List.replicate (dim - 3) (-4) ++ [-2]

/-- Main diagonal vector `d0` of `helpers.makeH`:
`[1, 5] ++ (dim-4) copies of 6 ++ [5, 1]`. -/
def d0 (dim : ℕ) : List ℚ := [1, 5] ++ List.replicate (dim - 4) 6 ++ [5, 1]

/-- The matrix `helpers.makeH` returns for `dim ≥ 4`, as an entry
function (`0` outside the `dim × dim` block): `diag(d1, 1) +
diag(d2, 2)` symmetrised by adding the transpose, then the main diagonal
overwritten with `d0` (`numpy.fill_diagonal` truncates `d0` to length
`dim`, which `getD` reproduces).  The second off-diagonal `d2` is all
ones. -/
def makeHEntry (dim : ℕ) : ℕ → ℕ → ℚ := fun i j =>
  if i < dim ∧ j < dim then
    if i = j then (d0 dim).getD i 0
    else if j = i + 1 then (d1 dim).getD i 0
    else if j = i + 2 then 1
    else if i = j + 1 then (d1 dim).getD j 0
    else if i = j + 2 then 1
    else 0
  else 0

/-- `helpers.makeH dim`.  For `dim ≤ 3` one of `numpy.ones(dim - 2)`,
`numpy.repeat(-4, dim - 3)`, `numpy.repeat(6, dim - 4)` receives a
negative count and raises `ValueError` (the spec's `InvalidDimension`);
for `dim ≥ 4` all counts are nonnegative and the assembled matrix is
returned. -/
def makeH (dim : ℕ) : Except SolverErr (ℕ → ℕ → ℚ) :=
  if dim < 4 then .error .invalidDimension else .ok (makeHEntry dim)

/-- `helpers.simpson dim`: Simpson quadrature weights
`concatenate([1], tile([4,2], dim//2)[0:dim-2], [1]) / 3`, or the
`ValueError` (spec: `InvalidGridSize`) unless `dim > 2` and `dim` odd.
`numpy.tile [4,2] t` is `(List.replicate t [4,2]).flatten`. -/
def simpson (dim : ℤ) : Except SolverErr (List ℚ) :=
  if 2 < dim ∧ dim % 2 = 1 then
    .ok ((([1] ++ ((List.replicate (dim.toNat / 2) ([4, 2] : List ℚ)).flatten.take
        (dim.toNat - 2)) ++ [1]).map fun x => x / 3))
  else .error .invalidGridSize

end Helpers

namespace Quad

/-- One evaluation of the body of `quad.gregory_coef`: starting from
`Fraction(1, k+2)`, the `for r in range(k)` loop subtracts
`abs(G_r) * Fraction(1, k+1-r)` (previous coefficients are supplied as
the list `prev`), and the result is multiplied by `(-1)^(k+1)`.  The
Python loop is mirrored by a `List.foldl`.  (The `if k == 0:` branch of
the source computes `Fraction(-1, 2)` but never returns it, so every
value, including `k = 0`, comes from this general formula.) -/
def gregStep (prev : List ℚ) (k : ℕ) : ℚ :=
  ((List.range k).foldl
      (fun grn r => grn - |prev.getD r 0| * (1 / ((k : ℚ) + 1 - (r : ℚ))))
      (1 / ((k : ℚ) + 2))) * (-1) ^ (k + 1)

/-- The list `[G_0, …, G_{m-1}]` of Gregory coefficients, built
bottom-up (the source is recursive with memoisation). -/
def gregList : ℕ → List ℚ
  | 0 => []
  | m + 1 => gregList m ++ [gregStep (gregList m) m]

/-- `quad.gregory_coef k`: the `k`-th Gregory coefficient. -/
def gregory_coef (k : ℕ) : ℚ := (gregList (k + 1)).getD k 0

/-- The `i`-th entry of `quad.gregory_weights k`:
`(invpascal(k+1, kind="upper", exact=True) @ [G_0, …, G_k])_i + 1`.
`scipy.linalg.invpascal(m, kind="upper")` is the inverse of the
upper-triangular Pascal matrix `P[i,j] = C(j,i)`; its entries are
`(-1)^(j-i) * C(j,i)` for `i ≤ j` and `0` below the diagonal. -/
def gregory_weight (k i : ℕ) : ℚ :=
  (∑ j ∈ Finset.Icc i k, (-1 : ℚ) ^ (j - i) * (j.choose i : ℚ) * gregory_coef j) + 1

/-- `quad.gregory_weights k` as a list of length `k + 1`. -/
def gregory_weights (k : ℕ) : List ℚ := (List.range (k + 1)).map (gregory_weight k)

/-- Entry `(j, c)` of `quad.sigma_weights k` (a `(k+1) × (2k+2)` array;
row `j` corresponds to `i = j + 1` in the source loop).  Unfolding the
three slice assignments of the loop body with `ω = gregory_weights k`:
columns `0..k` hold `ω c`, plus `ω (k-c+i) - 1` when `i ≤ c ≤ k`;
columns `k+1..k+i` hold `ω (i+k-c)` (the flipped prefix of `ω`);
later columns stay `0`. -/
def sigma_entry (k j c : ℕ) : ℚ :=
  if c ≤ k then
    gregory_weight k c +
      (if j + 1 ≤ c then gregory_weight k (k - c + (j + 1)) - 1 else 0)
  else if c ≤ k + (j + 1) then gregory_weight k ((j + 1) + k - c)
  else 0

/-- Increasing Vandermonde matrix `np.vander(np.arange(k+1),
increasing=True)`: entry `(i, j) = i ^ j`. -/
def vanderInc : ℕ → ℕ → ℚ := fun i j => (i : ℚ) ^ j

/-- `quad.poly_integration_weights k`, entry `(r, c)`: the product
`aux @ inv(V)` where `aux r m = r^m / (m+1) * r` (the source's
`vander / (grid+1) * grid[:, newaxis]`) and `V` is the increasing
Vandermonde matrix of size `k+1`. -/
def polyIntWeight (k : ℕ) : ℕ → ℕ → ℚ := fun r c =>
  ∑ m ∈ Finset.range (k + 1),
    ((r : ℚ) ^ m / ((m : ℚ) + 1) * (r : ℚ)) * matInvN (k + 1) vanderInc m c

/-- Entry `(r, c)` of the `(n+1) × (n+1)` matrix built by
`quad.gregory_weight_matrix k n` (after the final truncation
`mat[:n+1]`): rows `0..k` take `poly_integration_weights k` on the first
`k+1` columns; rows `k+1..2k+1` take `sigma_weights k` on columns
`< min(n+1, 2k+2)`; every later row `r` is first filled with ones on
columns `0..r`, then columns `0..k` are overwritten with
`gregory_weights k` and columns `r-k..r` with the reversed
`gregory_weights k` (the two windows are disjoint since `r ≥ 2k+2`). -/
def gregory_wm_entry (k n : ℕ) : ℕ → ℕ → ℚ := fun r c =>
  if r ≤ n ∧ c ≤ n then
    if r ≤ k then (if c ≤ k then polyIntWeight k r c else 0)
    else if r ≤ 2 * k + 1 then
      (if c ≤ 2 * k + 1 then sigma_entry k (r - (k + 1)) c else 0)
    else
      if r - k ≤ c ∧ c ≤ r then gregory_weight k (r - c)
      else if c ≤ k then gregory_weight k c
      else if c ≤ r then 1
      else 0
  else 0

/-- `quad.gregory_weight_matrix k n` guarded by its `assert n >= k`
(the spec's `InvalidOrder`). -/
def gregory_weight_matrix (k : ℕ) (n : ℤ) : Except SolverErr (ℕ → ℕ → ℚ) :=
  if n < (k : ℤ) then .error .invalidOrder else .ok (gregory_wm_entry k n.toNat)

/-- Row `r`, column `c` of the repeated Simpson + Simpson-3/8 matrix
`quad.simpson_quad`.  Row 0 stays zero; row 1 is `[5/12, 8/12, -1/12]`;
an even row `r ≥ 2` is `1/3` at columns `0` and `r` with `4/3, 2/3`
alternating between them (`tile([4/3, 2/3], r/2)` then the last entry
overwritten by `1/3`); an odd row `r ≥ 3` copies row `r - 3` and adds
`[3/8, 9/8, 9/8, 3/8]` on columns `r-3..r`. -/
def simpson_quad_row : ℕ → ℕ → ℚ
  | 0, _ => 0
  | 1, c =>
      if c = 0 then 5 / 12 else if c = 1 then 8 / 12 else if c = 2 then -1 / 12 else 0
  | r + 2, c =>
      if (r + 2) % 2 = 0 then
        if c = 0 then 1 / 3
        else if c = r + 2 then 1 / 3
        else if c < r + 2 then (if c % 2 = 1 then 4 / 3 else 2 / 3)
        else 0
      else
        simpson_quad_row (r - 1) c +
          (if r - 1 ≤ c ∧ c ≤ r + 2 then
            ([3 / 8, 9 / 8, 9 / 8, 3 / 8] : List ℚ).getD (c - (r - 1)) 0
          else 0)
  termination_by r _ => r
  decreasing_by omega

/-- `quad.simpson_quad n` for an integer `n`: the body writes
`arr[1, 2]` and rows `2..n`, so `n ≤ 1` is an `IndexError`. -/
def simpson_quad (n : ℤ) : Except SolverErr (ℕ → ℕ → ℚ) :=
  if n < 2 then .error .indexError
  else .ok (fun r c => if r ≤ n.toNat ∧ c ≤ n.toNat then simpson_quad_row r c else 0)

end Quad

namespace Volterra

/-- The full kernel matrix `k(sgrid[:, newaxis], sgrid)` of
`volterra.solve` (line 53, before `numpy.tril`): entry `(i, j)` is
`kernel(s_i, s_j)`. -/
def kmat1 (k : ℚ → ℚ → ℚ) (s : List ℚ) : ℕ → ℕ → ℚ := fun i j =>
  k (s.getD i 0) (s.getD j 0)

/-- The full kernel matrix `k(sgrid, sgrid[:, newaxis])` of
`volterra.solve2` (line 116): entry `(i, j)` is `kernel(s_j, s_i)`. -/
def kmat2 (k : ℚ → ℚ → ℚ) (s : List ℚ) : ℕ → ℕ → ℚ := fun i j =>
  k (s.getD j 0) (s.getD i 0)

/-- Trapezoid matrix of `volterra.solve`: halve the diagonal of the
lower-triangular kernel matrix, then add `k(sgrid, 0) / 2` to column 0.
Note the literal `0` in the source: the added correction is
`kernel(s_i, 0) / 2` regardless of the lower bound `a`. -/
def ktrilTrap (k : ℚ → ℚ → ℚ) (s : List ℚ) : ℕ → ℕ → ℚ := fun i j =>
  let halved : ℕ → ℕ → ℚ := fun i' j' =>
    if i' = j' then tril (kmat1 k s) i' j' / 2 else tril (kmat1 k s) i' j'
  if j = 0 then halved i j + k (s.getD i 0) 0 / 2 else halved i j

/-- `volterra.solve` on an integer grid size (the public wrapper applies
Python `int` first).  `num = 0` raises `ZeroDivisionError` in
`(b - a) / num`; a negative `num` raises in `numpy.linspace`; an unknown
method raises (spec: `InvalidMethod`); an exactly-zero diagonal makes
`solve_triangular` report a singular matrix.  The returned second row is
`ggrid * num / (b - a)`. -/
def solveInt (k : ℚ → ℚ → ℚ) (f : ℚ → ℚ) (a b : ℚ) (num : ℤ) (method : String) :
    Except SolverErr (List ℚ × List ℚ) :=
  if num = 0 then .error .zeroDivision
  else if num < 0 then .error .valueError
  else
    let n := num.toNat
    let sgrid := linspace (a + (b - a) / (num : ℚ)) b n
    let pick : Except SolverErr (ℕ → ℕ → ℚ) :=
      if method = "midpoint" then .ok (tril (kmat1 k sgrid))
      else if method = "trapezoid" then .ok (ktrilTrap k sgrid)
      else .error .invalidMethod
    pick.bind fun ktril =>
      match forwardSubst ktril (sgrid.map f) n with
      | none => .error .singular
      | some g => .ok (sgrid, g.map fun x => x * (num : ℚ) / (b - a))

/-- Public `volterra.solve`: `int(num)`, then the integer core. -/
def solve (k : ℚ → ℚ → ℚ) (f : ℚ → ℚ) (a b num : ℚ) (method : String) :
    Except SolverErr (List ℚ × List ℚ) :=
  solveInt k f a b (pyInt num) method

/-- Midpoint matrix of `volterra.solve2`: `numpy.tril`, then the `(0,0)`
entry zeroed. -/
def km2Mid (k : ℚ → ℚ → ℚ) (s : List ℚ) : ℕ → ℕ → ℚ := fun i j =>
  if i = 0 ∧ j = 0 then 0 else tril (kmat2 k s) i j

/-- Trapezoid matrix of `volterra.solve2`: `numpy.tril`, column 0
multiplied by `1/2`, the diagonal halved, then the `(0,0)` entry
zeroed. -/
def km2Trap (k : ℚ → ℚ → ℚ) (s : List ℚ) : ℕ → ℕ → ℚ := fun i j =>
  if i = 0 ∧ j = 0 then 0
  else
    let t := tril (kmat2 k s) i j
    let t1 := if j = 0 then t * (1 / 2) else t
    if i = j then t1 / 2 else t1

/-- `volterra.solve2` on an integer grid size.  The grid is
`linspace a b num` with step `h = (b - a) / (num - 1)` (`num = 1` raises
`ZeroDivisionError`); midpoint/trapezoid solve the lower-triangular
system `(I - h K) g = f` by `solve_triangular` (writing `kmat[0, 0]` is
an `IndexError` when `num = 0`); simpson/gregory multiply the kernel
matrix elementwise by their weight matrix for `n = num - 1` and use the
dense solver on `-h K + I`. -/
def solve2Int (k : ℚ → ℚ → ℚ) (f : ℚ → ℚ) (a b : ℚ) (num : ℤ) (method : String)
    (gregOrder : ℕ) : Except SolverErr (List ℚ × List ℚ) :=
  if num < 0 then .error .valueError
  else
    let n := num.toNat
    let sgrid := linspace a b n
    if n = 1 then .error .zeroDivision
    else
      let h := (b - a) / ((num : ℚ) - 1)
      let fgrid := sgrid.map f
      if method = "midpoint" then
        if n = 0 then .error .indexError
        else
          triSolve (fun i j => eye i j - h * km2Mid k sgrid i j) fgrid n sgrid
      else if method = "trapezoid" then
        if n = 0 then .error .indexError
        else
          triSolve (fun i j => eye i j - h * km2Trap k sgrid i j) fgrid n sgrid
      else if method = "simpson" then
        (Quad.simpson_quad (num - 1)).bind fun w =>
          (linSolveN n (fun i j => eye i j - h * (kmat2 k sgrid i j * w i j))
              (fun i => fgrid.getD i 0)).bind fun g => .ok (sgrid, g)
      else if method = "gregory" then
        (Quad.gregory_weight_matrix gregOrder (num - 1)).bind fun w =>
          (linSolveN n (fun i j => eye i j - h * (kmat2 k sgrid i j * w i j))
              (fun i => fgrid.getD i 0)).bind fun g => .ok (sgrid, g)
      else .error .invalidMethod

/-- Public `volterra.solve2`: `int(num)`, then the integer core. -/
def solve2 (k : ℚ → ℚ → ℚ) (f : ℚ → ℚ) (a b num : ℚ) (method : String) (gregOrder : ℕ) :
    Except SolverErr (List ℚ × List ℚ) :=
  solve2Int k f a b (pyInt num) method gregOrder

end Volterra

namespace Fredholm

/-- `fredholm.solve` on an integer grid size: force `num` odd by
incrementing, resolve the optional `smin`/`smax`/`snum` keyword
arguments (defaults `a`, `b`, `2 * num` with the adjusted `num`), build
the `s`- and `y`-grids and the Simpson weights, form the quadrature
matrix `ksqur[i, j] = weights[j] * k(s_i, y_j)`, the regularised normal
matrix `ksqurᵀ ksqur (+ gamma·H)` — `Hmat = makeH(num)` is evaluated
only inside the `if gamma != 0` branch, so its `dim ≤ 3` `ValueError`
can only surface when `gamma ≠ 0` — solve against `ksqurᵀ f(sgrid)`,
and rescale the solution by `num / (b - a)`. -/
def solveInt (k : ℚ → ℚ → ℚ) (f : ℚ → ℚ) (a b gamma : ℚ) (num0 : ℤ)
    (sminO smaxO : Option ℚ) (snumO : Option ℤ) : Except SolverErr (List ℚ × List ℚ) :=
  let num := if num0 % 2 = 0 then num0 + 1 else num0
  let smin := sminO.getD a
  let smax := smaxO.getD b
  let snum := snumO.getD (2 * num)
  (linspaceE smin smax snum).bind fun sgrid =>
    (linspaceE a b num).bind fun ygrid =>
      (Helpers.simpson num).bind fun weights =>
        let ns := snum.toNat
        let n := num.toNat
        let ksqur : ℕ → ℕ → ℚ := fun i j =>
          weights.getD j 0 * k (sgrid.getD i 0) (ygrid.getD j 0)
        (if gamma ≠ 0 then Helpers.makeH n else .ok fun _ _ => 0).bind fun Hmat =>
          let AAgH : ℕ → ℕ → ℚ := fun i j =>
            (∑ m ∈ Finset.range ns, ksqur m i * ksqur m j) +
              (if gamma ≠ 0 then gamma * Hmat i j else 0)
          let rhs : ℕ → ℚ := fun j => ∑ i ∈ Finset.range ns, ksqur i j * f (sgrid.getD i 0)
          (linSolveN n AAgH rhs).bind fun ggrid =>
            .ok (ygrid, ggrid.map fun x => x * (num : ℚ) / (b - a))

/-- Public `fredholm.solve`: `int(num)`, then the integer core. -/
def solve (k : ℚ → ℚ → ℚ) (f : ℚ → ℚ) (a b gamma num : ℚ)
    (sminO smaxO : Option ℚ) (snumO : Option ℤ) : Except SolverErr (List ℚ × List ℚ) :=
  solveInt k f a b gamma (pyInt num) sminO smaxO snumO

end Fredholm

end Inteq


namespace Inteq

/-! ### Basic facts about the embedded numpy primitives -/

theorem linspace_length (a b : ℚ) (n : ℕ) : (linspace a b n).length = n := by
  unfold linspace
  rw [List.length_map, List.length_range]

theorem linspace_getD_zero (a b : ℚ) (n : ℕ) (h : 0 < n) :
    (linspace a b n).getD 0 0 = a := by
  cases n with
  | zero => omega
  | succ m =>
    simp [linspace, List.range_succ_eq_map]

theorem pyInt_intCast (m : ℤ) : pyInt (m : ℚ) = m := by
  unfold pyInt
  split
  · exact Int.ceil_intCast m
  · exact Int.floor_intCast m

theorem pyInt_natCast (n : ℕ) : pyInt (n : ℚ) = n := by
  have h : ((n : ℤ) : ℚ) = (n : ℚ) := by push_cast; rfl
  rw [← h, pyInt_intCast]

end Inteq

namespace Inteq

/-! ### C1: the first-kind trapezoid column-0 correction -/

/-- C1: evaluating the code's trapezoid assembly of `volterra.solve` at
`kernel (s, y) = y`, `a = 1`, `b = 2`, `num = 2` (grid `[3/2, 2]`): the
assembled entry `(1, 0)` is `3/2`, because the code adds the correction
`kernel(s_1, 0) / 2 = 0` with a literal `0`; the claimed correction
`kernel(s_1, a) / 2 = 1/2` would instead give the entry the value `2`.
The two disagree, so the claim fails on the code for `a ≠ 0`. -/
theorem volterra1_trap_correction_at_literal_zero :
    Volterra.ktrilTrap (fun _ y => y) (linspace (1 + (2 - 1) / 2) 2 2) 1 0 = 3 / 2 ∧
    tril (Volterra.kmat1 (fun _ y => y) (linspace (1 + (2 - 1) / 2) 2 2)) 1 0 +
        (fun (_ y : ℚ) => y) ((linspace (1 + (2 - 1) / 2) 2 2).getD 1 0) 1 / 2 = 2 ∧
    (3 / 2 : ℚ) ≠ 2 := by
  have hs : linspace (1 + (2 - 1) / 2) 2 2 = [3 / 2, 2] := by
    norm_num [linspace, List.range_succ]
  refine ⟨?_, ?_, by norm_num⟩ <;>
    simp [hs, Volterra.ktrilTrap, Volterra.kmat1, tril] <;> norm_num

/-! ### C2: the regularisation matrix at dimension 5 -/

/-- C2 counterexample: `makeH 5` succeeds and returns the matrix
`makeHEntry 5`, whose first off-diagonal is the 4-entry vector
`[-2, -4, -4, -2]`, not the claimed `[-2, -4, -2]`. -/
theorem makeH_dim5_offdiag1_ne :
    Helpers.makeH 5 = .ok (Helpers.makeHEntry 5) ∧
    (List.range 4).map (fun i => Helpers.makeHEntry 5 i (i + 1)) ≠ [-2, -4, -2] :=
  ⟨rfl, by decide⟩

/-- C2 (amended): `makeH 5` succeeds, returning a symmetric matrix with
main diagonal `[1, 5, 6, 5, 1]`, first off-diagonal `[-2, -4, -4, -2]`
and second off-diagonal `[1, 1, 1]`. -/
theorem makeH_dim5_literal :
    Helpers.makeH 5 = .ok (Helpers.makeHEntry 5) ∧
    (∀ i j : Fin 5, Helpers.makeHEntry 5 i j = Helpers.makeHEntry 5 j i) ∧
    (List.range 5).map (fun i => Helpers.makeHEntry 5 i i) = [1, 5, 6, 5, 1] ∧
    (List.range 4).map (fun i => Helpers.makeHEntry 5 i (i + 1)) = [-2, -4, -4, -2] ∧
    (List.range 3).map (fun i => Helpers.makeHEntry 5 i (i + 2)) = [1, 1, 1] := by
  refine ⟨rfl, ?_, by decide, by decide, by decide⟩
  decide

end Inteq

namespace Inteq

namespace Quad

/-! ### C3: the Gregory coefficients -/

theorem gregList_length (m : ℕ) : (gregList m).length = m := by
  induction m with
  | zero => rfl
  | succ m ih => simp [gregList, ih]

theorem gregory_coef_eq_getD (k m : ℕ) (h : k < m) :
    gregory_coef k = (gregList m).getD k 0 := by
  induction m with
  | zero => omega
  | succ m ih =>
    rcases Nat.lt_succ_iff_lt_or_eq.mp h with h' | h'
    · rw [ih h', gregList, List.getD_append]
      rw [gregList_length]; exact h'
    · subst h'; rfl

theorem gregory_coef_values :
    gregory_coef 0 = -1/2 ∧ gregory_coef 1 = 1/12 ∧ gregory_coef 2 = -1/24 ∧
    gregory_coef 3 = 19/720 ∧ gregory_coef 4 = -3/160 ∧ gregory_coef 5 = 863/60480 ∧
    gregory_coef 6 = -275/24192 ∧ gregory_coef 7 = 33953/3628800 ∧
    gregory_coef 8 = -8183/1036800 ∧ gregory_coef 9 = 3250433/479001600 ∧
    gregory_coef 10 = -4671/788480 := by
  have h11 : gregList 11 =
      [-1/2, 1/12, -1/24, 19/720, -3/160, 863/60480, -275/24192, 33953/3628800,
        -8183/1036800, 3250433/479001600, -4671/788480] := by
    norm_num [gregList, gregStep, List.range_succ, abs_of_nonneg, abs_of_nonpos]
  refine ⟨?_, ?_, ?_, ?_, ?_, ?_, ?_, ?_, ?_, ?_, ?_⟩ <;>
    rw [gregory_coef_eq_getD _ 11 (by omega), h11] <;> rfl

end Quad

end Inteq

namespace Inteq

/-! ### C4: degree-0 exactness of the quadrature weights -/

theorem sum_map_range (n : ℕ) (f : ℕ → ℚ) :
    ((List.range n).map f).sum = ∑ i ∈ Finset.range n, f i := by
  induction n with
  | zero => simp
  | succ n ih =>
    rw [List.range_succ, List.map_append, List.sum_append, Finset.sum_range_succ, ih]
    simp

theorem alternating_choose_sum (j : ℕ) :
    ∑ i ∈ Finset.range (j + 1), (-1 : ℚ) ^ (j - i) * (j.choose i : ℚ)
      = if j = 0 then 1 else 0 := by
  have key : ∑ i ∈ Finset.range (j + 1), (-1 : ℚ) ^ i * (j.choose i : ℚ)
      = if j = 0 then 1 else 0 := by
    have h := Int.alternating_sum_range_choose (n := j)
    rcases Nat.eq_zero_or_pos j with rfl | hj
    · simp
    · rw [if_neg (by omega)] at h ⊢
      exact_mod_cast h
  rw [← key, ← Finset.sum_range_reflect]
  refine Finset.sum_congr rfl fun i hi => ?_
  simp only [Finset.mem_range] at hi
  have hij : i ≤ j := by omega
  have h1 : j + 1 - 1 - i = j - i := by omega
  rw [h1, Nat.sub_sub_self hij, Nat.choose_symm hij]

namespace Quad

theorem gregory_weight_sum (k : ℕ) :
    ∑ i ∈ Finset.range (k + 1), gregory_weight k i = (k : ℚ) + 1 / 2 := by
  unfold gregory_weight
  rw [Finset.sum_add_distrib, Finset.sum_const, Finset.card_range]
  have hmain : ∑ i ∈ Finset.range (k + 1),
      ∑ j ∈ Finset.Icc i k, (-1 : ℚ) ^ (j - i) * (j.choose i : ℚ) * gregory_coef j
      = -(1 / 2) := by
    have hIcc : ∀ i : ℕ, Finset.Icc i k = Finset.Ico i (k + 1) := by
      intro i; rw [Nat.Ico_succ_right]
    simp only [hIcc]
    rw [Finset.range_eq_Ico, Finset.sum_Ico_Ico_comm]
    have hinner : ∀ j ∈ Finset.Ico 0 (k + 1),
        ∑ i ∈ Finset.Ico 0 (j + 1), (-1 : ℚ) ^ (j - i) * (j.choose i : ℚ) * gregory_coef j
          = (if j = 0 then 1 else 0) * gregory_coef j := by
      intro j _
      rw [← Finset.range_eq_Ico, ← Finset.sum_mul, alternating_choose_sum]
    rw [Finset.sum_congr rfl hinner]
    have h0 : (0 : ℕ) ∈ Finset.Ico 0 (k + 1) := by simp
    simp only [ite_mul, one_mul, zero_mul]
    rw [Finset.sum_ite_eq' (Finset.Ico 0 (k + 1)) 0 gregory_coef, if_pos h0,
      gregory_coef_values.1]
    norm_num
  rw [hmain]
  ring

theorem gregory_weights_sum (k : ℕ) :
    (gregory_weights k).sum = (k : ℚ) + 1 / 2 := by
  rw [gregory_weights, sum_map_range, gregory_weight_sum]

end Quad

theorem sum_map_div3 (l : List ℚ) : (l.map fun x => x / 3).sum = l.sum / 3 := by
  induction l with
  | nil => simp
  | cons x t ih => simp [ih]; ring

theorem tile_take_sum (m : ℕ) (hm : 1 ≤ m) :
    ((List.replicate m ([4, 2] : List ℚ)).flatten.take (2 * m - 1)).sum
      = 6 * (m : ℚ) - 2 := by
  induction m with
  | zero => omega
  | succ m ih =>
    rcases Nat.eq_zero_or_pos m with rfl | hm'
    · norm_num [List.replicate, List.take]
    · have h1 : 2 * (m + 1) - 1 = (2 * m - 1) + 1 + 1 := by omega
      rw [List.replicate_succ, List.flatten_cons, h1]
      simp only [List.cons_append, List.take_succ_cons, List.nil_append, List.sum_cons]
      rw [ih hm']
      push_cast
      ring

theorem simpson_sum (n : ℕ) (l : List ℚ) (h : Helpers.simpson (n : ℤ) = .ok l) :
    l.sum = (n : ℚ) - 1 := by
  unfold Helpers.simpson at h
  by_cases hc : 2 < (n : ℤ) ∧ (n : ℤ) % 2 = 1
  · rw [if_pos hc] at h
    injection h with h
    subst h
    obtain ⟨m, hm2⟩ : ∃ m, n = 2 * m + 1 := ⟨n / 2, by omega⟩
    have hm : 1 ≤ m := by omega
    have htn : (n : ℤ).toNat = n := Int.toNat_natCast n
    have hdiv : (n : ℤ).toNat / 2 = m := by rw [htn]; omega
    have hsub : (n : ℤ).toNat - 2 = 2 * m - 1 := by rw [htn]; omega
    rw [hdiv, hsub, sum_map_div3, List.sum_append, List.sum_append,
      tile_take_sum m hm]
    have hn : (n : ℚ) = 2 * (m : ℚ) + 1 := by rw [hm2]; push_cast; ring
    rw [hn]
    norm_num
    ring
  · rw [if_neg hc] at h
    exact absurd h (by simp)

namespace Quad

theorem gregory_row_sum (k n r : ℕ) (h1 : 2 * k + 2 ≤ r) (h2 : r ≤ n) :
    ∑ c ∈ Finset.range (n + 1), gregory_wm_entry k n r c = (r : ℚ) := by
  have hE : ∀ c ∈ Finset.range (n + 1), gregory_wm_entry k n r c =
      (if r - k ≤ c ∧ c ≤ r then gregory_weight k (r - c)
        else if c ≤ k then gregory_weight k c
        else if c ≤ r then 1
        else 0) := by
    intro c hc
    simp only [Finset.mem_range] at hc
    unfold gregory_wm_entry
    rw [if_pos ⟨by omega, by omega⟩, if_neg (by omega), if_neg (by omega)]
  rw [Finset.sum_congr rfl hE]
  have hb1 : (0 : ℕ) ≤ k + 1 := by omega
  have hb2 : k + 1 ≤ r - k := by omega
  have hb3 : r - k ≤ r + 1 := by omega
  have hb4 : r + 1 ≤ n + 1 := by omega
  rw [Finset.range_eq_Ico,
    ← Finset.sum_Ico_consecutive _ (by omega : (0:ℕ) ≤ k + 1) (by omega : k + 1 ≤ n + 1),
    ← Finset.sum_Ico_consecutive _ hb2 (by omega : r - k ≤ n + 1),
    ← Finset.sum_Ico_consecutive _ hb3 hb4]
  have hA : ∑ c ∈ Finset.Ico 0 (k + 1),
      (if r - k ≤ c ∧ c ≤ r then gregory_weight k (r - c)
        else if c ≤ k then gregory_weight k c else if c ≤ r then 1 else 0)
      = (k : ℚ) + 1 / 2 := by
    rw [Finset.sum_congr rfl (fun c hc => ?_), ← Finset.range_eq_Ico, gregory_weight_sum]
    simp only [Finset.mem_Ico] at hc
    rw [if_neg (by omega), if_pos (by omega)]
  have hB : ∑ c ∈ Finset.Ico (k + 1) (r - k),
      (if r - k ≤ c ∧ c ≤ r then gregory_weight k (r - c)
        else if c ≤ k then gregory_weight k c else if c ≤ r then 1 else 0)
      = (r : ℚ) - 2 * k - 1 := by
    rw [Finset.sum_congr rfl (fun c hc => ?_)]
    · rw [Finset.sum_const, Nat.card_Ico]
      have hcount : r - k - (k + 1) = r - (2 * k + 1) := by omega
      rw [hcount, nsmul_eq_mul, mul_one, Nat.cast_sub (by omega : 2 * k + 1 ≤ r)]
      push_cast
      ring
    · simp only [Finset.mem_Ico] at hc
      rw [if_neg (by omega), if_neg (by omega), if_pos (by omega)]
  have hC : ∑ c ∈ Finset.Ico (r - k) (r + 1),
      (if r - k ≤ c ∧ c ≤ r then gregory_weight k (r - c)
        else if c ≤ k then gregory_weight k c else if c ≤ r then 1 else 0)
      = (k : ℚ) + 1 / 2 := by
    have step1 : ∑ c ∈ Finset.Ico (r - k) (r + 1),
        (if r - k ≤ c ∧ c ≤ r then gregory_weight k (r - c)
          else if c ≤ k then gregory_weight k c else if c ≤ r then 1 else 0)
        = ∑ c ∈ Finset.Ico (r - k) (r + 1), gregory_weight k (r - c) :=
      Finset.sum_congr rfl fun c hc => by
        simp only [Finset.mem_Ico] at hc
        rw [if_pos ⟨by omega, by omega⟩]
    rw [step1]
    simp only [Finset.sum_Ico_eq_sum_range]
    have hlen : r + 1 - (r - k) = k + 1 := by omega
    rw [hlen]
    calc ∑ i ∈ Finset.range (k + 1), gregory_weight k (r - (r - k + i))
        = ∑ i ∈ Finset.range (k + 1), gregory_weight k (k + 1 - 1 - i) := by
          refine Finset.sum_congr rfl fun i hi => ?_
          simp only [Finset.mem_range] at hi
          congr 1
          omega
      _ = ∑ i ∈ Finset.range (k + 1), gregory_weight k i :=
          Finset.sum_range_reflect (fun i => gregory_weight k i) (k + 1)
      _ = (k : ℚ) + 1 / 2 := gregory_weight_sum k
  have hD : ∑ c ∈ Finset.Ico (r + 1) (n + 1),
      (if r - k ≤ c ∧ c ≤ r then gregory_weight k (r - c)
        else if c ≤ k then gregory_weight k c else if c ≤ r then 1 else 0)
      = 0 := by
    rw [Finset.sum_congr rfl (fun c hc => ?_), Finset.sum_const_zero]
    simp only [Finset.mem_Ico] at hc
    rw [if_neg (by omega), if_neg (by omega), if_neg (by omega)]
  rw [hA, hB, hC, hD]
  ring

end Quad

end Inteq

namespace Inteq

theorem simpson_ok_bounds (n : ℕ) (l : List ℚ) (h : Helpers.simpson (n : ℤ) = .ok l) :
    2 < n ∧ n % 2 = 1 := by
  unfold Helpers.simpson at h
  by_cases hc : 2 < (n : ℤ) ∧ (n : ℤ) % 2 = 1
  · constructor <;> omega
  · rw [if_neg hc] at h
    exact absurd h (by simp)

/-- C3: for every `k` in `0..10`, `gregory_coef k` is an exact rational
satisfying `G_0 = -1/2` and, for `k ≥ 1`,
`G_k = (-1)^(k+1) * (1/(k+2) - ∑_{r<k} |G_r| / (k+1-r))`; in particular
the values at `k = 0, 1, 2, 3` are `-1/2, 1/12, -1/24, 19/720`.  (The
`k == 0` branch of the source computes a value it never returns; the
uniform formula also yields `-1/2` at `k = 0`.) -/
theorem gregory_coef_recursive_identity :
    Quad.gregory_coef 0 = -1/2 ∧
    (∀ k : ℕ, 1 ≤ k → k ≤ 10 →
      Quad.gregory_coef k = (-1 : ℚ) ^ (k + 1) *
        (1 / ((k : ℚ) + 2) -
          ∑ r ∈ Finset.range k, |Quad.gregory_coef r| / ((k : ℚ) + 1 - (r : ℚ)))) ∧
    Quad.gregory_coef 1 = 1/12 ∧ Quad.gregory_coef 2 = -1/24 ∧
    Quad.gregory_coef 3 = 19/720 := by
  obtain ⟨g0, g1, g2, g3, g4, g5, g6, g7, g8, g9, g10⟩ := Quad.gregory_coef_values
  refine ⟨g0, ?_, g1, g2, g3⟩
  intro k hk1 hk10
  interval_cases k <;>
    norm_num [Finset.sum_range_succ, g0, g1, g2, g3, g4, g5, g6, g7, g8, g9, g10,
      abs_of_nonneg, abs_of_nonpos]

/-- C3 witness: the recursive identity instantiated at `k = 4`. -/
theorem gregory_coef_recursive_identity_witness :
    Quad.gregory_coef 4 = (-1 : ℚ) ^ (4 + 1) *
      (1 / (((4 : ℕ) : ℚ) + 2) -
        ∑ r ∈ Finset.range 4, |Quad.gregory_coef r| / (((4 : ℕ) : ℚ) + 1 - (r : ℚ))) :=
  gregory_coef_recursive_identity.2.1 4 (by norm_num) (by norm_num)

/-- C4: degree-0 exactness of the quadrature weight constructions:
(i) every successful `helpers.simpson n` weight vector sums to `n - 1`,
so scaling by the step `h = (b-a)/(n-1)` integrates the constant
function 1 exactly to `b - a` over `[a, b]`; (ii) the entries of
`gregory_weights k` sum to `k + 1/2` for every order `k ≥ 0`; (iii)
every sliding-window row `r` with `2k+2 ≤ r ≤ n` of
`gregory_weight_matrix k n` sums to `r`. -/
theorem quadrature_degree_zero_exactness :
    (∀ (n : ℕ) (l : List ℚ), Helpers.simpson (n : ℤ) = .ok l →
      l.sum = (n : ℚ) - 1 ∧ ∀ a b : ℚ, (b - a) / ((n : ℚ) - 1) * l.sum = b - a) ∧
    (∀ k : ℕ, (Quad.gregory_weights k).sum = (k : ℚ) + 1 / 2) ∧
    (∀ (k n r : ℕ) (w : ℕ → ℕ → ℚ), Quad.gregory_weight_matrix k (n : ℤ) = .ok w →
      2 * k + 2 ≤ r → r ≤ n → ∑ c ∈ Finset.range (n + 1), w r c = (r : ℚ)) := by
  refine ⟨?_, Quad.gregory_weights_sum, ?_⟩
  · intro n l h
    have hs := simpson_sum n l h
    have hb := simpson_ok_bounds n l h
    refine ⟨hs, fun a b => ?_⟩
    rw [hs]
    have hne : (n : ℚ) - 1 ≠ 0 := by
      have h3 : (3 : ℚ) ≤ (n : ℚ) := by exact_mod_cast hb.1
      linarith
    exact div_mul_cancel₀ (b - a) hne
  · intro k n r w hw hr1 hr2
    have hwe : w = Quad.gregory_wm_entry k n := by
      unfold Quad.gregory_weight_matrix at hw
      by_cases hc : (n : ℤ) < (k : ℤ)
      · rw [if_pos hc] at hw
        exact absurd hw (by simp)
      · rw [if_neg hc] at hw
        injection hw with hw
        rw [← hw, Int.toNat_natCast]
    rw [hwe]
    exact Quad.gregory_row_sum k n r hr1 hr2

theorem simpson_five_eval :
    Helpers.simpson ((5 : ℕ) : ℤ) = .ok [1/3, 4/3, 2/3, 4/3, 1/3] := by
  have h2 : ((5 : ℕ) : ℤ).toNat = 5 := rfl
  unfold Helpers.simpson
  rw [if_pos (by norm_num), h2]
  norm_num [List.replicate_succ, List.flatten_cons, List.take_succ_cons]

theorem gwm_one_six_eval :
    Quad.gregory_weight_matrix 1 ((6 : ℕ) : ℤ) = .ok (Quad.gregory_wm_entry 1 6) := by
  have h2 : ((6 : ℕ) : ℤ).toNat = 6 := rfl
  unfold Quad.gregory_weight_matrix
  rw [if_neg (by norm_num), h2]

/-- C4 witness: the exactness statements at concrete inputs — the
`simpson 5` vector sums to `5 - 1`, `gregory_weights 2` sums to
`2 + 1/2`, and row `4` of `gregory_weight_matrix 1 6` sums to `4`. -/
theorem quadrature_degree_zero_exactness_witness :
    ([1/3, 4/3, 2/3, 4/3, 1/3] : List ℚ).sum = ((5 : ℕ) : ℚ) - 1 ∧
    (Quad.gregory_weights 2).sum = ((2 : ℕ) : ℚ) + 1 / 2 ∧
    ∑ c ∈ Finset.range (6 + 1), Quad.gregory_wm_entry 1 6 4 c = ((4 : ℕ) : ℚ) :=
  ⟨(quadrature_degree_zero_exactness.1 5 _ simpson_five_eval).1,
    quadrature_degree_zero_exactness.2.1 2,
    quadrature_degree_zero_exactness.2.2 1 6 4 _ gwm_one_six_eval (by norm_num) (by norm_num)⟩

end Inteq

namespace Inteq

/-! ### C6: `helpers.simpson` error condition and weight pattern -/

theorem tile42_pattern (m : ℕ) :
    (List.replicate m ([4, 2] : List ℚ)).flatten
      = (List.range (2 * m)).map (fun i => if i % 2 = 0 then (4 : ℚ) else 2) := by
  induction m with
  | zero => rfl
  | succ m ih =>
    have h2 : 2 * (m + 1) = 2 * m + 1 + 1 := by ring
    rw [List.replicate_succ, List.flatten_cons, ih, h2,
      List.range_succ_eq_map, List.range_succ_eq_map]
    simp only [List.map_cons, List.map_map]
    norm_num
    intro i hi
    have hmod : (i + 1 + 1) % 2 = i % 2 := by omega
    simp only [hmod]

theorem simpson_ok_closed (n : ℕ) (hn : 2 < n) (hodd : n % 2 = 1) :
    Helpers.simpson (n : ℤ) = .ok ((List.range n).map fun i =>
      if i = 0 ∨ i = n - 1 then (1 : ℚ) / 3 else if i % 2 = 1 then 4 / 3 else 2 / 3) := by
  obtain ⟨m, rfl⟩ : ∃ m, n = 2 * m + 1 := ⟨n / 2, by omega⟩
  have hm : 1 ≤ m := by omega
  unfold Helpers.simpson
  rw [if_pos (by omega)]
  congr 1
  have htn : ((2 * m + 1 : ℕ) : ℤ).toNat = 2 * m + 1 := Int.toNat_natCast _
  rw [htn]
  have hdiv : (2 * m + 1) / 2 = m := by omega
  have hsub : 2 * m + 1 - 2 = 2 * m - 1 := by omega
  rw [hdiv, hsub, tile42_pattern, ← List.map_take, List.take_range]
  have hmin : min (2 * m - 1) (2 * m) = 2 * m - 1 := by omega
  rw [hmin]
  apply List.ext_getElem
  · simp
    omega
  · intro i h1 h2
    simp only [List.length_map, List.length_append, List.length_range,
      List.length_cons, List.length_nil] at h1
    simp only [List.getElem_map, List.getElem_range]
    rcases Nat.eq_zero_or_pos i with rfl | hi0
    · simp
    · by_cases hlast : i = 2 * m
      · subst hlast
        rw [List.getElem_append_right
          (by
            simp only [List.length_append, List.length_map, List.length_range,
              List.length_cons, List.length_nil]
            omega)]
        simp only [List.getElem_singleton]
        rw [if_pos (Or.inr (by omega : 2 * m = 2 * m + 1 - 1))]
      · rw [List.getElem_append_left
          (by
            simp only [List.length_append, List.length_map, List.length_range,
              List.length_cons, List.length_nil]
            omega),
          List.getElem_append_right
            (by
              simp only [List.length_cons, List.length_nil]
              omega)]
        simp only [List.getElem_map, List.getElem_range, List.length_cons,
          List.length_nil]
        have hmod : (i - 1) % 2 = 0 ↔ i % 2 = 1 := by omega
        rw [if_neg (show ¬(i = 0 ∨ i = 2 * m + 1 - 1) by omega)]
        by_cases hp : i % 2 = 1
        · rw [if_pos (hmod.mpr hp), if_pos hp]
        · rw [if_neg (fun hc => hp (hmod.mp hc)), if_neg hp]

end Inteq

namespace Inteq

/-- C6: `helpers.simpson n` raises the `InvalidGridSize` `ValueError`
exactly when `n` is even or `n ≤ 2`; for every odd `n > 2` it returns
the length-`n` weight vector with `1/3` at both ends and the interior
alternating `4/3, 2/3` by parity (entry `i` is `4/3` for odd `i`), so
the interior starts and ends with `4/3`. -/
theorem simpson_error_iff_and_pattern :
    (∀ n : ℤ, Helpers.simpson n = .error .invalidGridSize ↔ (n % 2 = 0 ∨ n ≤ 2)) ∧
    (∀ n : ℕ, 2 < n → n % 2 = 1 →
      Helpers.simpson (n : ℤ) = .ok ((List.range n).map fun i =>
        if i = 0 ∨ i = n - 1 then (1 : ℚ) / 3
        else if i % 2 = 1 then 4 / 3 else 2 / 3) ∧
      ((List.range n).map fun i =>
        if i = 0 ∨ i = n - 1 then (1 : ℚ) / 3
        else if i % 2 = 1 then 4 / 3 else 2 / 3).length = n) := by
  constructor
  · intro n
    unfold Helpers.simpson
    by_cases hc : 2 < n ∧ n % 2 = 1
    · rw [if_pos hc]
      constructor
      · intro h
        exact absurd h (by simp)
      · intro h
        omega
    · rw [if_neg hc]
      constructor
      · intro _
        omega
      · intro _
        rfl
  · intro n h2 hodd
    exact ⟨simpson_ok_closed n h2 hodd, by simp⟩

/-- C6 witness: at `n = 5` the solver returns the patterned vector, and
at `n = 2` it reports `InvalidGridSize`. -/
theorem simpson_error_iff_and_pattern_witness :
    Helpers.simpson ((5 : ℕ) : ℤ) = .ok ((List.range 5).map fun i =>
      if i = 0 ∨ i = 5 - 1 then (1 : ℚ) / 3
      else if i % 2 = 1 then 4 / 3 else 2 / 3) ∧
    Helpers.simpson (2 : ℤ) = .error .invalidGridSize :=
  ⟨(simpson_error_iff_and_pattern.2 5 (by norm_num) (by norm_num)).1,
    (simpson_error_iff_and_pattern.1 2).mpr (by norm_num)⟩

/-- C7: the second-kind Volterra solver assembles its kernel matrix with
the argument order transposed relative to the first-kind solver: entry
`(i, j)` of `solve2`'s matrix is `kernel(s_j, s_i)` while entry `(i, j)`
of `solve`'s matrix is `kernel(s_i, s_j)`, so the two matrices are exact
transposes; whenever the kernel is non-symmetric at a pair of grid
points, the two conventions produce different matrices. -/
theorem volterra_kernel_argument_transposition :
    (∀ (k : ℚ → ℚ → ℚ) (s : List ℚ) (i j : ℕ),
      Volterra.kmat2 k s i j = Volterra.kmat1 k s j i) ∧
    (∀ (k : ℚ → ℚ → ℚ) (s : List ℚ) (i j : ℕ),
      k (s.getD i 0) (s.getD j 0) ≠ k (s.getD j 0) (s.getD i 0) →
      Volterra.kmat2 k s ≠ Volterra.kmat1 k s) := by
  refine ⟨fun k s i j => rfl, ?_⟩
  intro k s i j hne heq
  have h := congrFun (congrFun heq i) j
  exact hne h.symm

/-- C7 witness: the non-symmetric kernel `k(x, y) = x` on the grid
`[0, 1]` makes the two conventions produce different matrices. -/
theorem volterra_kernel_argument_transposition_witness :
    Volterra.kmat2 (fun x _ => x) [0, 1] 0 1 = Volterra.kmat1 (fun x _ => x) [0, 1] 1 0 ∧
    Volterra.kmat2 (fun x _ => x) [0, 1] ≠ Volterra.kmat1 (fun x _ => x) [0, 1] :=
  ⟨volterra_kernel_argument_transposition.1 (fun x _ => x) [0, 1] 0 1,
    volterra_kernel_argument_transposition.2 (fun x _ => x) [0, 1] 0 1 (by norm_num)⟩

theorem pyInt_ten_nine : pyInt (109 / 10 : ℚ) = 10 := by
  unfold pyInt
  rw [if_neg (by norm_num), Int.floor_eq_iff] <;> norm_num

theorem pyInt_ten : pyInt (10 : ℚ) = 10 := by
  unfold pyInt
  rw [if_neg (by norm_num), Int.floor_eq_iff] <;> norm_num

/-- C10: every public solver truncates its grid size toward zero via
Python `int(num)` before any other use: each solver's result at `num`
equals its result at the integer `pyInt num`, and in particular
`num = 109/10` (10.9) behaves exactly like `num = 10`; the non-integer
grid size itself never raises. -/
theorem solvers_truncate_num :
    (∀ k f a b numq method, Volterra.solve k f a b numq method =
      Volterra.solve k f a b ((pyInt numq : ℤ) : ℚ) method) ∧
    (∀ k f a b numq method go, Volterra.solve2 k f a b numq method go =
      Volterra.solve2 k f a b ((pyInt numq : ℤ) : ℚ) method go) ∧
    (∀ k f a b gamma numq o1 o2 o3, Fredholm.solve k f a b gamma numq o1 o2 o3 =
      Fredholm.solve k f a b gamma ((pyInt numq : ℤ) : ℚ) o1 o2 o3) ∧
    (∀ k f a b method, Volterra.solve k f a b (109 / 10) method =
      Volterra.solve k f a b 10 method) ∧
    (∀ k f a b method go, Volterra.solve2 k f a b (109 / 10) method go =
      Volterra.solve2 k f a b 10 method go) ∧
    (∀ k f a b gamma o1 o2 o3, Fredholm.solve k f a b gamma (109 / 10) o1 o2 o3 =
      Fredholm.solve k f a b gamma 10 o1 o2 o3) := by
  refine ⟨?_, ?_, ?_, ?_, ?_, ?_⟩
  · intro k f a b numq method
    unfold Volterra.solve
    rw [pyInt_intCast]
  · intro k f a b numq method go
    unfold Volterra.solve2
    rw [pyInt_intCast]
  · intro k f a b gamma numq o1 o2 o3
    unfold Fredholm.solve
    rw [pyInt_intCast]
  · intro k f a b method
    unfold Volterra.solve
    rw [pyInt_ten_nine, pyInt_ten]
  · intro k f a b method go
    unfold Volterra.solve2
    rw [pyInt_ten_nine, pyInt_ten]
  · intro k f a b gamma o1 o2 o3
    unfold Fredholm.solve
    rw [pyInt_ten_nine, pyInt_ten]

end Inteq

namespace Inteq

/-! ### C8: `solve2` midpoint/trapezoid reproduce `f a` exactly -/

theorem forwardSubst_length (M : ℕ → ℕ → ℚ) (b : List ℚ) :
    ∀ n g, forwardSubst M b n = some g → g.length = n := by
  intro n
  induction n with
  | zero =>
    intro g h
    unfold forwardSubst at h
    injection h with h
    rw [← h]
    rfl
  | succ n ih =>
    intro g h
    unfold forwardSubst at h
    rcases hf : forwardSubst M b n with _ | g'
    · rw [hf] at h
      exact absurd h (by simp)
    · rw [hf, Option.some_bind] at h
      by_cases hd : M n n = 0
      · rw [if_pos hd] at h
        exact absurd h (by simp)
      · rw [if_neg hd] at h
        injection h with h
        rw [← h, List.length_append, ih g' hf]
        rfl

theorem forwardSubst_getD_zero (M : ℕ → ℕ → ℚ) (b : List ℚ) :
    ∀ n g, 1 ≤ n → forwardSubst M b n = some g →
      g.getD 0 0 = b.getD 0 0 / M 0 0 := by
  intro n
  induction n with
  | zero => omega
  | succ n ih =>
    intro g _ h
    unfold forwardSubst at h
    rcases hf : forwardSubst M b n with _ | g'
    · rw [hf] at h
      exact absurd h (by simp)
    · rw [hf, Option.some_bind] at h
      by_cases hd : M n n = 0
      · rw [if_pos hd] at h
        exact absurd h (by simp)
      · rw [if_neg hd] at h
        injection h with h
        rcases Nat.eq_zero_or_pos n with rfl | hn
        · have hg' : g' = [] := by
            unfold forwardSubst at hf
            injection hf with hf
            rw [← hf]
          rw [← h, hg']
          simp
        · have hlen := forwardSubst_length M b n g' hf
          rw [← h, List.getD_append]
          · exact ih g' hn hf
          · omega

theorem getD_map_zero (f : ℚ → ℚ) (l : List ℚ) (h : 0 < l.length) :
    (l.map f).getD 0 0 = f (l.getD 0 0) := by
  cases l with
  | nil => simp at h
  | cons x t => simp

theorem triSolve_ok (M : ℕ → ℕ → ℚ) (fg : List ℚ) (n : ℕ) (s : List ℚ)
    (p : List ℚ × List ℚ) (h : triSolve M fg n s = .ok p) :
    ∃ g, forwardSubst M fg n = some g ∧ p = (s, g) := by
  unfold triSolve at h
  rcases hc : forwardSubst M fg n with _ | g
  · rw [hc, Option.elim_none] at h
    exact absurd h (by simp)
  · rw [hc, Option.elim_some] at h
    injection h with h
    exact ⟨g, rfl, h.symm⟩

end Inteq

namespace Inteq

/-- C8: for methods `"midpoint"` and `"trapezoid"`, `volterra.solve2`
zeroes the `(0, 0)` entry of the lower-triangularised weighted kernel
matrix before the triangular solve, so for every kernel, free function
and grid size, whenever the solve succeeds the first returned solution
value equals `f a` exactly (not merely approximately). -/
theorem volterra2_first_value_exact :
    (∀ (k : ℚ → ℚ → ℚ) (s : List ℚ),
      Volterra.km2Mid k s 0 0 = 0 ∧ Volterra.km2Trap k s 0 0 = 0) ∧
    (∀ (k : ℚ → ℚ → ℚ) (f : ℚ → ℚ) (a b : ℚ) (num : ℕ) (method : String)
      (go : ℕ) (p : List ℚ × List ℚ), 2 ≤ num →
      method = "midpoint" ∨ method = "trapezoid" →
      Volterra.solve2 k f a b (num : ℚ) method go = .ok p →
      p.2.getD 0 0 = f a) := by
  constructor
  · intro k s
    exact ⟨by simp [Volterra.km2Mid], by simp [Volterra.km2Trap]⟩
  · intro k f a b num method go p h2 hm hok
    unfold Volterra.solve2 at hok
    rw [pyInt_natCast] at hok
    unfold Volterra.solve2Int at hok
    rw [if_neg (not_lt.mpr (Int.natCast_nonneg num))] at hok
    simp only [Int.toNat_natCast, Int.cast_natCast] at hok
    rw [if_neg (by omega : ¬ num = 1)] at hok
    have hfa : ((linspace a b num).map f).getD 0 0 = f a := by
      rw [getD_map_zero f _ (by rw [linspace_length]; omega),
        linspace_getD_zero a b num (by omega)]
    rcases hm with rfl | rfl
    · rw [if_pos rfl, if_neg (by omega : ¬ num = 0)] at hok
      obtain ⟨g, hfs, rfl⟩ := triSolve_ok _ _ _ _ _ hok
      have hget := forwardSubst_getD_zero _ _ num g (by omega) hfs
      simp only at hget ⊢
      rw [hget, hfa]
      simp [eye, Volterra.km2Mid]
    · rw [if_neg (by decide : ¬ ("trapezoid" : String) = "midpoint"),
        if_pos rfl, if_neg (by omega : ¬ num = 0)] at hok
      obtain ⟨g, hfs, rfl⟩ := triSolve_ok _ _ _ _ _ hok
      have hget := forwardSubst_getD_zero _ _ num g (by omega) hfs
      simp only at hget ⊢
      rw [hget, hfa]
      simp [eye, Volterra.km2Trap]

theorem forwardSubst_two (M : ℕ → ℕ → ℚ) (b : List ℚ) (h0 : M 0 0 ≠ 0)
    (h1 : M 1 1 ≠ 0) :
    forwardSubst M b 2 = some [b.getD 0 0 / M 0 0,
      (b.getD 1 0 - M 1 0 * (b.getD 0 0 / M 0 0)) / M 1 1] := by
  show forwardSubst M b (0 + 1 + 1) = _
  simp only [forwardSubst]
  simp [h0, h1, Finset.sum_range_one]

theorem solve2_midpoint_example_eval :
    Volterra.solve2 (fun _ _ => 0) (fun x => x) 0 1 ((2 : ℕ) : ℚ) "midpoint" 3
      = .ok ([0, 1], [0, 1]) := by
  unfold Volterra.solve2
  rw [pyInt_natCast]
  unfold Volterra.solve2Int
  rw [if_neg (not_lt.mpr (Int.natCast_nonneg 2))]
  simp only [Int.toNat_natCast, Int.cast_natCast]
  rw [if_neg (by omega : ¬ (2 : ℕ) = 1), if_pos trivial, if_neg (by omega : ¬ (2 : ℕ) = 0)]
  have hsg : linspace 0 1 2 = [0, 1] := by
    norm_num [linspace, List.range_succ]
  rw [hsg]
  unfold triSolve
  rw [forwardSubst_two _ _ (by norm_num [eye, Volterra.km2Mid])
    (by norm_num [eye, Volterra.km2Mid, Volterra.kmat2, tril])]
  norm_num [eye, Volterra.km2Mid, Volterra.kmat2, tril]

/-- C8 witness: the zeroed corner entries for a concrete kernel and
grid, and the exact first value `f(a) = 0` for `f = id`, `a = 0`,
`num = 2` under the midpoint method. -/
theorem volterra2_first_value_exact_witness :
    (Volterra.km2Mid (fun _ _ => 0) [0, 1] 0 0 = 0 ∧
      Volterra.km2Trap (fun _ _ => 0) [0, 1] 0 0 = 0) ∧
    (([0, 1], [0, 1]) : List ℚ × List ℚ).2.getD 0 0 = (fun x : ℚ => x) 0 :=
  ⟨volterra2_first_value_exact.1 (fun _ _ => 0) [0, 1],
    volterra2_first_value_exact.2 (fun _ _ => 0) (fun x => x) 0 1 2 "midpoint" 3
      ([0, 1], [0, 1]) (by norm_num) (Or.inl rfl) solve2_midpoint_example_eval⟩

end Inteq

namespace Inteq

/-! ### C9: the gregory-method failure condition of `solve2` -/

theorem solve2_gregory_shape (k : ℚ → ℚ → ℚ) (f : ℚ → ℚ) (a b : ℚ) (num g : ℕ)
    (h2 : 2 ≤ num) :
    (num ≤ g → Volterra.solve2 k f a b (num : ℚ) "gregory" g = .error .invalidOrder) ∧
    (g < num → Volterra.solve2 k f a b (num : ℚ) "gregory" g ≠ .error .invalidOrder) := by
  unfold Volterra.solve2
  rw [pyInt_natCast]
  unfold Volterra.solve2Int
  rw [if_neg (not_lt.mpr (Int.natCast_nonneg num))]
  simp only [Int.toNat_natCast, Int.cast_natCast]
  rw [if_neg (by omega : ¬ num = 1),
    if_neg (by decide : ¬ ("gregory" : String) = "midpoint"),
    if_neg (by decide : ¬ ("gregory" : String) = "trapezoid"),
    if_neg (by decide : ¬ ("gregory" : String) = "simpson"), if_pos trivial]
  constructor
  · intro hge
    have hw : Quad.gregory_weight_matrix g ((num : ℤ) - 1) = .error .invalidOrder := by
      unfold Quad.gregory_weight_matrix
      rw [if_pos (by omega)]
    rw [hw]
    rfl
  · intro hlt heq
    have hw : Quad.gregory_weight_matrix g ((num : ℤ) - 1)
        = .ok (Quad.gregory_wm_entry g ((num : ℤ) - 1).toNat) := by
      unfold Quad.gregory_weight_matrix
      rw [if_neg (by omega)]
    rw [hw] at heq
    simp only [Except.bind] at heq
    unfold linSolveN at heq
    by_cases hdet : detN num (fun i j => eye i j -
        (b - a) / ((num : ℚ) - 1) * (Volterra.kmat2 k (linspace a b num) i j *
          Quad.gregory_wm_entry g ((num : ℤ) - 1).toNat i j)) = 0
    · rw [if_pos hdet] at heq
      simp only [Except.bind] at heq
      simp at heq
    · rw [if_neg hdet] at heq
      simp only [Except.bind] at heq
      simp at heq

/-- C9 counterexample: with `num = 4`, `gregOrder = 2` the Gregory
window `2*gregOrder + 2 = 6` exceeds the grid size `4`, yet `solve2`
does not fail with `InvalidOrder`: `gregory_weight_matrix` only asserts
`n ≥ k` and truncates the over-long window rows. -/
theorem volterra2_gregory_window_no_failure :
    2 * 2 + 2 > 4 ∧
    Volterra.solve2 (fun _ _ => 0) (fun x => x) 0 1 ((4 : ℕ) : ℚ) "gregory" 2
      ≠ .error .invalidOrder :=
  ⟨by norm_num,
    (solve2_gregory_shape (fun _ _ => 0) (fun x => x) 0 1 4 2 (by norm_num)).2
      (by norm_num)⟩

/-- C9 (amended): for grid sizes `num ≥ 2`, `solve2` with method
`"gregory"` fails with the `assert n >= k` error (the spec's
`InvalidOrder`) precisely when `gregOrder ≥ num`; for every
`gregOrder < num` no such failure occurs — in particular a Gregory
window `2*gregOrder + 2` exceeding the grid size does not by itself
cause the failure. -/
theorem volterra2_gregory_invalid_order :
    ∀ (k : ℚ → ℚ → ℚ) (f : ℚ → ℚ) (a b : ℚ) (num g : ℕ), 2 ≤ num →
      ((num ≤ g →
        Volterra.solve2 k f a b (num : ℚ) "gregory" g = .error .invalidOrder) ∧
       (g < num →
        Volterra.solve2 k f a b (num : ℚ) "gregory" g ≠ .error .invalidOrder)) :=
  fun k f a b num g h2 => solve2_gregory_shape k f a b num g h2

/-- C9 witness: at `num = 2`, `gregOrder = 5 ≥ num` the solver reports
`InvalidOrder`. -/
theorem volterra2_gregory_invalid_order_witness :
    Volterra.solve2 (fun _ _ => 0) (fun x => x) 0 1 ((2 : ℕ) : ℚ) "gregory" 5
      = .error .invalidOrder :=
  (volterra2_gregory_invalid_order (fun _ _ => 0) (fun x => x) 0 1 2 5
    (by norm_num)).1 (by norm_num)

end Inteq

namespace Inteq

/-! ### C5: the Fredholm solver's even-grid adjustment -/

/-- C5 counterexample: for the even grid size `num = 0` the adjusted
size is `0 + 1 = 1`, and the internal `simpson` call raises
`InvalidGridSize` — `solveFredholm` does raise for this even `num`, so
the claim's blanket "it never raises for even num" fails at `num = 0`. -/
theorem fredholm_num_zero_invalid_grid :
    Fredholm.solve (fun _ _ => 0) (fun x => x) 0 1 (1 / 1000) ((0 : ℕ) : ℚ)
      none none none = .error .invalidGridSize := by
  unfold Fredholm.solve
  rw [pyInt_natCast]
  unfold Fredholm.solveInt
  rw [if_pos (by decide : ((0 : ℕ) : ℤ) % 2 = 0)]
  simp only [Option.getD_none]
  unfold linspaceE
  rw [if_neg (by decide : ¬ (2 * (((0 : ℕ) : ℤ) + 1) < 0)),
    if_neg (by decide : ¬ (((0 : ℕ) : ℤ) + 1 < 0))]
  have hs : Helpers.simpson (((0 : ℕ) : ℤ) + 1) = .error .invalidGridSize := by
    unfold Helpers.simpson
    rw [if_neg (by decide)]
  rw [hs]
  rfl

/-- C5 (amended): `solveFredholm` forces the grid size to be odd — for
every even `num ≥ 4` it silently uses `num + 1`: it never raises
`InvalidGridSize` (the internal Simpson call receives the odd size
`num + 1` and `makeH` the dimension `num + 1 ≥ 5`; only a singular
normal system can make it fail), the returned first row is the y-grid of
`num + 1` evenly spaced points over `[a, b]`, and both returned rows
have length `num + 1`.  The restriction to `num ≥ 4` is forced: at even
`num = 0` the Simpson call raises `InvalidGridSize`, and at even
`num = 2` with `gamma ≠ 0` the adjusted size is 3 and `makeH(3)` raises
`ValueError` via `numpy.repeat(6, -1)` — the second conjunct proves that
failure. -/
theorem fredholm_even_num_adjustment :
    (∀ (k : ℚ → ℚ → ℚ) (f : ℚ → ℚ) (a b gamma : ℚ) (num : ℕ),
      4 ≤ num → num % 2 = 0 →
      (Fredholm.solve k f a b gamma (num : ℚ) none none none
          ≠ .error .invalidGridSize) ∧
      (∀ e, Fredholm.solve k f a b gamma (num : ℚ) none none none = .error e →
        e = .singular) ∧
      (∀ y gg, Fredholm.solve k f a b gamma (num : ℚ) none none none = .ok (y, gg) →
        y = linspace a b (num + 1) ∧ y.length = num + 1 ∧ gg.length = num + 1)) ∧
    (∀ (k : ℚ → ℚ → ℚ) (f : ℚ → ℚ) (a b gamma : ℚ), gamma ≠ 0 →
      Fredholm.solve k f a b gamma ((2 : ℕ) : ℚ) none none none
        = .error .invalidDimension) := by
  constructor
  · intro k f a b gamma num h4 heven
    unfold Fredholm.solve
    rw [pyInt_natCast]
    unfold Fredholm.solveInt
    rw [if_pos (by omega : ((num : ℕ) : ℤ) % 2 = 0)]
    have hcast : ((num : ℕ) : ℤ) + 1 = ((num + 1 : ℕ) : ℤ) := by push_cast; ring
    rw [hcast]
    simp only [Option.getD_none]
    unfold linspaceE
    rw [if_neg (by omega : ¬ (2 * ((num + 1 : ℕ) : ℤ) < 0)),
      if_neg (by omega : ¬ (((num + 1 : ℕ) : ℤ) < 0)),
      simpson_ok_closed (num + 1) (by omega) (by omega)]
    simp only [Int.toNat_natCast]
    have hmk : (if gamma ≠ 0 then Helpers.makeH (num + 1) else .ok fun _ _ => 0)
        = Except.ok (if gamma ≠ 0 then Helpers.makeHEntry (num + 1) else fun _ _ => 0) := by
      unfold Helpers.makeH
      rw [if_neg (by omega : ¬ (num + 1 < 4))]
      split <;> rfl
    rw [hmk]
    simp only [Except.bind]
    unfold linSolveN
    split
    · rename_i err heq
      have herr : err = SolverErr.singular := by
        split at heq <;> split at heq <;>
          first
            | (injection heq with h; exact h.symm)
            | exact absurd heq (by simp)
      subst herr
      refine ⟨by simp, fun e he => ?_, fun y gg hok => absurd hok (by simp)⟩
      injection he with he
      exact he.symm
    · rename_i val heq
      have hlen : val.length = num + 1 := by
        split at heq <;> split at heq
        · exact absurd heq (by simp)
        · injection heq with h
          subst h
          simp
        · exact absurd heq (by simp)
        · injection heq with h
          subst h
          simp
      refine ⟨by simp, fun e he => absurd he (by simp), fun y gg hok => ?_⟩
      injection hok with hok
      injection hok with h1 h2'
      refine ⟨h1.symm, ?_, ?_⟩
      · rw [← h1, linspace_length]
      · rw [← h2']
        simp [hlen]
  · intro k f a b gamma hg
    unfold Fredholm.solve
    rw [pyInt_natCast]
    unfold Fredholm.solveInt
    rw [if_pos (by decide : ((2 : ℕ) : ℤ) % 2 = 0)]
    have hcast : ((2 : ℕ) : ℤ) + 1 = ((3 : ℕ) : ℤ) := by decide
    rw [hcast]
    simp only [Option.getD_none]
    unfold linspaceE
    rw [if_neg (by decide : ¬ (2 * ((3 : ℕ) : ℤ) < 0)),
      if_neg (by decide : ¬ (((3 : ℕ) : ℤ) < 0)),
      simpson_ok_closed 3 (by omega) (by omega)]
    simp only [Int.toNat_natCast]
    have hmk : (if gamma ≠ 0 then Helpers.makeH 3 else .ok fun _ _ => 0)
        = Except.error SolverErr.invalidDimension := by
      rw [if_pos hg]
      unfold Helpers.makeH
      rw [if_pos (by omega : (3 : ℕ) < 4)]
    rw [hmk]
    rfl

/-- C5 witness: at the even grid size `num = 4` the Fredholm solver
cannot report `InvalidGridSize`, while at `num = 2` with
`gamma = 1/1000 ≠ 0` the internal `makeH(3)` call fails. -/
theorem fredholm_even_num_adjustment_witness :
    (Fredholm.solve (fun _ _ => 0) (fun x => x) 0 1 (1 / 1000) ((4 : ℕ) : ℚ)
        none none none ≠ .error .invalidGridSize) ∧
    (Fredholm.solve (fun _ _ => 0) (fun x => x) 0 1 (1 / 1000) ((2 : ℕ) : ℚ)
        none none none = .error .invalidDimension) :=
  ⟨(fredholm_even_num_adjustment.1 (fun _ _ => 0) (fun x => x) 0 1 (1 / 1000) 4
      (by norm_num) (by norm_num)).1,
    fredholm_even_num_adjustment.2 (fun _ _ => 0) (fun x => x) 0 1 (1 / 1000)
      (by norm_num)⟩

end Inteq
